import Mathlib

/-!
# Verification of the OF-Client torrent agent core

Shallow embedding of `src/services/torrent-agent/libtorrent_rpc.py`:
a line-delimited JSON-RPC agent wrapping a libtorrent session.

Modelling conventions:
* Python byte counters and rates are unbounded `int`s, embedded as `Int`.
* Python `float` arithmetic for the progress percentage is embedded as exact
  rational arithmetic (`ℚ`); the claims under study are about which formula
  is used, not about rounding of IEEE floats.
* The external libtorrent engine is embedded as explicit data: each torrent
  the session knows is a `Torrent` record of the telemetry the agent reads,
  plus the `paused` / `autoManaged` flags the agent writes.  Engine calls
  that the Python code guards with `try`/`except` are parameterised by an
  `EngineBeh` record saying which calls raise.
* Python exceptions become `Except String`; a handler either returns
  `(Except.ok v, st')` or `(Except.error msg, st')`, always threading the
  state so that mutations performed before a raise are visible.
* `params.get("torrentId")` returning `None` and an explicit empty string
  are both falsy in Python and behave identically in `_get_handle`
  (`if not torrent_id`), so missing/None identifiers are embedded as `""`.
-/

namespace TorrentAgent

/-- One torrent as seen through a libtorrent handle: the status fields the
agent reads (`total_wanted`, `total_done`, `download_rate`, `num_peers`,
`num_seeds`, `progress`, `state`, `is_finished`, `has_metadata`), the flags
it writes (`pause`/`resume`, `auto_managed`), and its info-hash string
(`str(h.info_hash())`).  `progressOpt = none` models a build whose status
object lacks a readable `progress` attribute (the `except` branch). -/
structure Torrent where
  infoHash : String
  paused : Bool
  autoManaged : Bool
  totalWanted : Int
  totalDone : Int
  downloadRate : Int
  numPeers : Int
  numSeeds : Int
  progressOpt : Option ℚ
  stateStr : Option String
  isFinished : Bool
  hasMetadata : Bool
deriving DecidableEq

/-- Mutable process state: the session's torrents (`ses.get_torrents()`)
and the registry `handles = {}` mapping identity string to handle.  A
registry value is embedded as the info-hash of the session torrent the
stored handle refers to. -/
structure AgentState where
  session : List Torrent
  handles : List (String × String)
deriving DecidableEq

/-- Python dict lookup `handles.get(k)`. -/
def dictLookup (hs : List (String × String)) (k : String) : Option String :=
  (hs.find? (fun p => p.1 == k)).map (fun p => p.2)

/-- Python dict assignment `handles[k] = v` (replaces any previous binding). -/
def dictInsert (hs : List (String × String)) (k v : String) :
    List (String × String) :=
  (k, v) :: hs.filter (fun p => !(p.1 == k))

/-- Python `del handles[k]` inside `try`/`except pass`: removes the binding
if present, does nothing otherwise. -/
def dictErase (hs : List (String × String)) (k : String) :
    List (String × String) :=
  hs.filter (fun p => !(p.1 == k))

/-- Apply `f` to the session torrent(s) carrying info-hash `ih`; embeds a
mutation performed through a handle (`h.pause()`, `h.unset_flags(...)`). -/
def updateTorrent (ses : List Torrent) (ih : String) (f : Torrent → Torrent) :
    List Torrent :=
  ses.map (fun t => if t.infoHash == ih then f t else t)

/-- `_get_handle(torrent_id)`: raise `"torrentId required"` on a falsy id,
else return the registered handle; on a registry miss, reconcile by scanning
`ses.get_torrents()` for a matching computed identity, re-registering on a
hit; raise `"torrent not found"` otherwise.  A registry hit whose torrent
has left the session is a dead handle — any later engine call through it
raises — surfaced here at resolution since the model's handle is the
session torrent itself. -/
def _get_handle (st : AgentState) (torrent_id : String) :
    Except String Torrent × AgentState :=
  if torrent_id == "" then (.error "torrentId required", st)
  else
    match dictLookup st.handles torrent_id with
    | some ih =>
      match st.session.find? (fun t => t.infoHash == ih) with
      | some t => (.ok t, st)
      | none => (.error "invalid torrent handle", st)
    | none =>
      match st.session.find? (fun t => t.infoHash == torrent_id) with
      | some th =>
        (.ok th, { st with handles := dictInsert st.handles torrent_id th.infoHash })
      | none => (.error "torrent not found", st)

/-- `pause_torrent`: resolve, `_ensure_unmanaged(h)`, `h.pause()`, return
`True`. -/
def pause_torrent (st : AgentState) (torrent_id : String) :
    Except String Bool × AgentState :=
  match _get_handle st torrent_id with
  | (.error e, st1) => (.error e, st1)
  | (.ok h, st1) =>
    (.ok true,
      { st1 with session := (updateTorrent st1.session h.infoHash
          (fun t => { t with autoManaged := false, paused := true })) })

/-- `resume_torrent`: resolve, `_ensure_unmanaged(h)`, `h.resume()`, return
`True`. -/
def resume_torrent (st : AgentState) (torrent_id : String) :
    Except String Bool × AgentState :=
  match _get_handle st torrent_id with
  | (.error e, st1) => (.error e, st1)
  | (.ok h, st1) =>
    (.ok true,
      { st1 with session := (updateTorrent st1.session h.infoHash
          (fun t => { t with autoManaged := false, paused := false })) })

/-- Behaviour of the external engine for the engine calls the agent wraps in
`try`/`except`: which removal call raises, what torrent `ses.add_torrent`
would create, and the advertised libtorrent version. -/
structure EngineBeh where
  version : Option String
  newTorrent : Torrent
  removeOptRaises : Bool
  removePlainRaises : Bool
deriving DecidableEq

/-- `ses.remove_torrent(h[, opt])`: on success the torrent leaves the
session; a raising call changes nothing. -/
def ses_remove_torrent (raises : Bool) (session : List Torrent) (h : Torrent) :
    Except String (List Torrent) :=
  if raises then .error "remove_torrent failed"
  else .ok (session.filter (fun t => !(t.infoHash == h.infoHash)))

/-- `remove_torrent(torrent_id, delete_files)`: resolve the handle, request
engine removal — `ses.remove_torrent(h, opt)` first, and on an exception the
plain `ses.remove_torrent(h)` fallback, whose own exception propagates —
then `del handles[torrent_id]` inside `try`/`except pass`.  The
`delete_files` option resolution (`lt.options_t.delete_files`, best-effort
defaulting to `0`) selects a flag value with no effect on the modelled
state. -/
def remove_torrent (eng : EngineBeh) (st : AgentState) (torrent_id : String)
    (_delete_files : Bool) : Except String Bool × AgentState :=
  match _get_handle st torrent_id with
  | (.error e, st1) => (.error e, st1)
  | (.ok h, st1) =>
    let attempt : Except String (List Torrent) :=
      match ses_remove_torrent eng.removeOptRaises st1.session h with
      | .ok ses2 => .ok ses2
      | .error _ => ses_remove_torrent eng.removePlainRaises st1.session h
    match attempt with
    | .error e => (.error e, st1)
    | .ok ses2 =>
      (.ok true, { session := ses2, handles := dictErase st1.handles torrent_id })

/-- The snapshot object returned by `status_torrent`. -/
structure Snapshot where
  infoHash : String
  progress : ℚ
  downloadRate : Int
  totalDone : Int
  totalWanted : Int
  eta : Int
  peers : Int
  seeds : Int
  state : Option String
  isFinished : Bool
  hasMetadata : Bool
deriving DecidableEq

/-- `status_torrent(torrent_id)`: resolve the handle, read `h.status()`
into a snapshot — progress from the engine's `s.progress * 100.0` when
readable, else `total_done/total_wanted * 100.0` when `total_wanted > 0`,
else `0.0`; `eta = int(remaining / download_rate)` when both are positive,
else `0` — and, when the snapshot reports the torrent finished, unset
auto-management and pause it before returning the snapshot. -/
def status_torrent (st : AgentState) (torrent_id : String) :
    Except String Snapshot × AgentState :=
  match _get_handle st torrent_id with
  | (.error e, st1) => (.error e, st1)
  | (.ok h, st1) =>
    let total_wanted := h.totalWanted
    let total_done := h.totalDone
    let download_rate := h.downloadRate
    let progress : ℚ :=
      match h.progressOpt with
      | some p => p * 100
      | none =>
        if total_wanted > 0 then ((total_done : ℚ) / (total_wanted : ℚ)) * 100
        else 0
    let remaining : Int := max 0 (total_wanted - total_done)
    let eta : Int :=
      if download_rate > 0 ∧ remaining > 0 then remaining / download_rate else 0
    let is_finished := h.isFinished
    let st2 :=
      if is_finished then
        { st1 with session := (updateTorrent st1.session h.infoHash
            (fun t => { t with autoManaged := false, paused := true })) }
      else st1
    (.ok { infoHash := h.infoHash, progress := progress,
           downloadRate := download_rate, totalDone := total_done,
           totalWanted := total_wanted, eta := eta, peers := h.numPeers,
           seeds := h.numSeeds, state := h.stateStr,
           isFinished := is_finished, hasMetadata := h.hasMetadata }, st2)

/-- `add_torrent(source, save_path)`: reject falsy arguments, hand the
add-parameters (with the `paused` and `auto_managed` flags cleared) to
`ses.add_torrent` — which raises on a duplicate info-hash — then
`_ensure_unmanaged(h)` and `h.resume()`, and register the handle under its
computed identity when that identity is truthy.  The engine decides the new
torrent's content (`eng.newTorrent`); the code forces its flags. -/
def add_torrent (eng : EngineBeh) (st : AgentState) (source save_path : String) :
    Except String String × AgentState :=
  if source == "" then (.error "source required", st)
  else if save_path == "" then (.error "save_path required", st)
  else if st.session.any (fun t => t.infoHash == eng.newTorrent.infoHash) then
    (.error "torrent already exists in session", st)
  else
    let h := { eng.newTorrent with autoManaged := false, paused := false }
    let st1 := { st with session := st.session ++ [h] }
    let ih := h.infoHash
    if ih == "" then (.ok ih, st1)
    else (.ok ih, { st1 with handles := dictInsert st1.handles ih h.infoHash })

/-! ## Settings Applicator -/

/-- Behaviour of the engine's two configuration entry points: which keys make
`ses.apply_settings` raise, whether a callable `set_settings` attribute
exists, and which keys make it raise. -/
structure SettingsEngine where
  primaryRaises : String → Bool
  hasSecondary : Bool
  secondaryRaises : String → Bool

/-- `ses.apply_settings({k: v})` as a raw engine call. -/
def ses_apply_settings (eng : SettingsEngine) (key : String) :
    Except String Unit :=
  if eng.primaryRaises key then .error "apply_settings failed" else .ok ()

/-- `ses.set_settings({k: v})` as a raw engine call (legacy entry point). -/
def ses_set_settings (eng : SettingsEngine) (key : String) :
    Except String Unit :=
  if eng.secondaryRaises key then .error "set_settings failed" else .ok ()

/-- `_apply_settings`: call `ses.apply_settings` and report success as a
boolean, catching any exception. -/
def _apply_settings (eng : SettingsEngine) (key : String) : Bool :=
  match ses_apply_settings eng key with
  | .ok _ => true
  | .error _ => false

/-- `_apply_settings_compat`: if a callable `set_settings` exists, call it
and report success, catching any exception; report failure otherwise. -/
def _apply_settings_compat (eng : SettingsEngine) (key : String) : Bool :=
  if eng.hasSecondary then
    match ses_set_settings eng key with
    | .ok _ => true
    | .error _ => false
  else false

/-- Observable engine-call trace of the settings applicator. -/
inductive Attempt where
  | primary (key : String)
  | secondary (key : String)
deriving DecidableEq

/-- `_apply_settings_safe(settings)`: for each key in order, try the primary
entry point; only when it fails, try the compat entry point, discarding its
outcome.  Returns the trace of attempts; the `Except` layer carries any
exception the function would propagate to its caller. -/
def _apply_settings_safe (eng : SettingsEngine) (keys : List String) :
    Except String (List Attempt) :=
  match keys with
  | [] => .ok []
  | key :: rest =>
    let applied := _apply_settings eng key
    let headAttempts :=
      if applied then [Attempt.primary key]
      else
        let _ := _apply_settings_compat eng key
        [Attempt.primary key, Attempt.secondary key]
    match _apply_settings_safe eng rest with
    | .error e => .error e
    | .ok tail => .ok (headAttempts ++ tail)

/-! ## Command Dispatcher -/

/-- The request correlation token `id` (any JSON value; opaque here). -/
inductive ReqId where
  | null
  | str (s : String)
  | num (n : Int)
deriving DecidableEq

/-- The fields the method lambdas read from `params` (absent keys are
`none`). -/
structure Params where
  source : Option String
  savePath : Option String
  torrentId : Option String
  deleteFiles : Option Bool
deriving DecidableEq

/-- A decoded request object, bundled with the engine behaviour in force
while it is served. -/
structure Request where
  id : ReqId
  method : Option String
  params : Params
  eng : EngineBeh
deriving DecidableEq

/-- One line read from stdin, after `line.strip()` and `json.loads`:
blank, undecodable (`json.loads` raises), decodable but not an object
(`req.get` raises `AttributeError`), or a request object. -/
inductive InputLine where
  | empty
  | malformed
  | nonObject
  | request (r : Request)
deriving DecidableEq

/-- A successful RPC result value. -/
inductive RpcResult where
  | pingR (version : Option String)
  | addR (infoHash : String)
  | boolR (b : Bool)
  | snapR (s : Snapshot)
deriving DecidableEq

instance {ε α : Type} [DecidableEq ε] [DecidableEq α] :
    DecidableEq (Except ε α) := fun a b =>
  match a, b with
  | .ok x, .ok y =>
    if h : x = y then isTrue (by rw [h]) else isFalse (by simp [h])
  | .error x, .error y =>
    if h : x = y then isTrue (by rw [h]) else isFalse (by simp [h])
  | .ok _, .error _ => isFalse (by simp)
  | .error _, .ok _ => isFalse (by simp)

/-- One response line: the echoed (or null) id with a result or an error
message. -/
structure Response where
  id : ReqId
  out : Except String RpcResult
deriving DecidableEq

/-- The fixed `METHODS` table's keys. -/
def METHODS : List String := ["ping", "add", "pause", "resume", "remove", "status"]

/-- Method lookup and invocation: `METHODS[method](params)` for a known
method, the `"unknown method"` error otherwise, with every handler
exception captured into the response. -/
def dispatch (st : AgentState) (r : Request) :
    Except String RpcResult × AgentState :=
  match r.method with
  | none => (.error "unknown method", st)
  | some m =>
    if m == "ping" then (.ok (.pingR r.eng.version), st)
    else if m == "add" then
      match add_torrent r.eng st (r.params.source.getD "") (r.params.savePath.getD "") with
      | (.ok ih, st') => (.ok (.addR ih), st')
      | (.error e, st') => (.error e, st')
    else if m == "pause" then
      match pause_torrent st (r.params.torrentId.getD "") with
      | (.ok b, st') => (.ok (.boolR b), st')
      | (.error e, st') => (.error e, st')
    else if m == "resume" then
      match resume_torrent st (r.params.torrentId.getD "") with
      | (.ok b, st') => (.ok (.boolR b), st')
      | (.error e, st') => (.error e, st')
    else if m == "remove" then
      match remove_torrent r.eng st (r.params.torrentId.getD "")
          (r.params.deleteFiles.getD false) with
      | (.ok b, st') => (.ok (.boolR b), st')
      | (.error e, st') => (.error e, st')
    else if m == "status" then
      match status_torrent st (r.params.torrentId.getD "") with
      | (.ok s, st') => (.ok (.snapR s), st')
      | (.error e, st') => (.error e, st')
    else (.error "unknown method", st)

/-- Process one input line: blank lines emit nothing; an undecodable line
emits an error response with `id: null` (`req` is still `None`); a decoded
non-object likewise (`isinstance(req, dict)` is false); a request object is
dispatched and its outcome wrapped with its own id. -/
def processLine (st : AgentState) (l : InputLine) :
    Option Response × AgentState :=
  match l with
  | .empty => (none, st)
  | .malformed => (some ⟨ReqId.null, .error "Expecting value"⟩, st)
  | .nonObject => (some ⟨ReqId.null, .error "object has no attribute get"⟩, st)
  | .request r =>
    match dispatch st r with
    | (out, st') => (some ⟨r.id, out⟩, st')

/-- The stdin loop: process every line in arrival order, collecting the
emitted responses. -/
def mainLoop (st : AgentState) : List InputLine → List Response × AgentState
  | [] => ([], st)
  | l :: ls =>
    match processLine st l with
    | (r, st') =>
      match mainLoop st' ls with
      | (rs, st'') => (r.toList ++ rs, st'')

/-! ## Helper lemmas -/

theorem get_handle_ok {st : AgentState} {tid : String} {h : Torrent}
    {st1 : AgentState} (hg : _get_handle st tid = (.ok h, st1)) :
    tid ≠ "" ∧ st1.session = st.session ∧
      dictLookup st1.handles tid = some h.infoHash ∧
      st.session.find? (fun t => t.infoHash == h.infoHash) = some h := by
  unfold _get_handle at hg
  split at hg
  · simp at hg
  · rename_i hb
    refine ⟨by simpa using hb, ?_⟩
    split at hg
    · rename_i ih hl
      split at hg
      · rename_i t hf
        simp only [Prod.mk.injEq, Except.ok.injEq] at hg
        obtain ⟨ht, hst⟩ := hg
        subst hst
        have hih : t.infoHash = ih := by simpa using List.find?_some hf
        refine ⟨rfl, ?_, ?_⟩
        · rw [← ht, hl, hih]
        · rw [← ht, hih]; exact hf
      · simp at hg
    · rename_i hl
      split at hg
      · rename_i th hf
        simp only [Prod.mk.injEq, Except.ok.injEq] at hg
        obtain ⟨ht, hst⟩ := hg
        subst hst
        have hih : th.infoHash = tid := by simpa using List.find?_some hf
        refine ⟨rfl, ?_, ?_⟩
        · rw [← ht]
          simp [dictLookup, dictInsert, List.find?]
        · rw [← ht, hih]; exact hf
      · simp at hg


theorem get_handle_of_lookup {st : AgentState} {tid ih : String} {t : Torrent}
    (htid : tid ≠ "") (hl : dictLookup st.handles tid = some ih)
    (hf : st.session.find? (fun u => u.infoHash == ih) = some t) :
    _get_handle st tid = (.ok t, st) := by
  unfold _get_handle
  rw [if_neg (by simpa using htid)]
  split
  · rename_i ih' hl'
    rw [hl] at hl'
    injection hl' with hihe
    subst hihe
    split
    · rename_i t' hf'
      rw [hf] at hf'
      injection hf' with hte
      subst hte
      rfl
    · rename_i hf'
      rw [hf'] at hf
      cases hf
  · rename_i hl'
    rw [hl'] at hl
    cases hl

theorem get_handle_notfound {st : AgentState} {tid : String}
    (htid : tid ≠ "") (hl : dictLookup st.handles tid = none)
    (hf : st.session.find? (fun u => u.infoHash == tid) = none) :
    _get_handle st tid = (.error "torrent not found", st) := by
  unfold _get_handle
  rw [if_neg (by simpa using htid)]
  split
  · rename_i ih' hl'
    rw [hl'] at hl
    cases hl
  · split
    · rename_i th hf'
      rw [hf'] at hf
      cases hf
    · rfl

theorem find?_updateTorrent (ses : List Torrent) (ih : String)
    (f : Torrent → Torrent) (hf : ∀ t, (f t).infoHash = t.infoHash) :
    (updateTorrent ses ih f).find? (fun t => t.infoHash == ih) =
      (ses.find? (fun t => t.infoHash == ih)).map f := by
  induction ses with
  | nil => rfl
  | cons t ts ihp =>
    by_cases hc : t.infoHash = ih
    · simp [updateTorrent, List.find?, hc, hf]
    · have h1 : (t.infoHash == ih) = false := by simpa using hc
      simp only [updateTorrent, List.map] at *
      rw [if_neg (by simpa using hc)]
      rw [List.find?_cons_of_neg _ (by simp [h1]),
        List.find?_cons_of_neg _ (by simp [h1])]
      exact ihp

theorem mem_updateTorrent_matching {ses : List Torrent} {ih : String}
    {f : Torrent → Torrent}
    {t : Torrent} (ht : t ∈ updateTorrent ses ih f) (hih : t.infoHash = ih) :
    ∃ u, t = f u := by
  unfold updateTorrent at ht
  obtain ⟨u, _, hu⟩ := List.mem_map.mp ht
  by_cases hc : u.infoHash = ih
  · rw [if_pos (by simpa using hc)] at hu
    exact ⟨u, hu.symm⟩
  · rw [if_neg (by simpa using hc)] at hu
    subst hu
    exact absurd hih hc

/-- Anatomy of a successful `status_torrent` call in terms of the resolved
handle. -/
theorem status_torrent_ok {st : AgentState} {tid : String} {h : Torrent}
    {st1 : AgentState} (hg : _get_handle st tid = (.ok h, st1)) :
    status_torrent st tid =
      (.ok { infoHash := h.infoHash,
             progress :=
               match h.progressOpt with
               | some p => p * 100
               | none =>
                 if h.totalWanted > 0 then
                   ((h.totalDone : ℚ) / (h.totalWanted : ℚ)) * 100
                 else 0,
             downloadRate := h.downloadRate, totalDone := h.totalDone,
             totalWanted := h.totalWanted,
             eta :=
               if h.downloadRate > 0 ∧ max 0 (h.totalWanted - h.totalDone) > 0
               then max 0 (h.totalWanted - h.totalDone) / h.downloadRate
               else 0,
             peers := h.numPeers, seeds := h.numSeeds, state := h.stateStr,
             isFinished := h.isFinished, hasMetadata := h.hasMetadata },
       if h.isFinished then
         { st1 with session := (updateTorrent st1.session h.infoHash
             (fun t => { t with autoManaged := false, paused := true })) }
       else st1) := by
  unfold status_torrent
  rw [hg]

/-! ## Claims -/

/-- Claim C4: for every successful `status(id)` call, the reported `eta`
equals `remainingBytes / downloadRate` when `downloadRate > 0` and
`remainingBytes > 0` (with `remainingBytes = max 0 (totalWanted -
totalDone)`), and equals `0` otherwise; in particular `eta` is `0` whenever
`downloadRate = 0` or `totalDone ≥ totalWanted`, and `eta` is never
negative. -/
theorem status_eta_formula (st : AgentState) (tid : String) (snap : Snapshot)
    (st' : AgentState) (hs : status_torrent st tid = (.ok snap, st')) :
    (0 < snap.downloadRate ∧ 0 < max 0 (snap.totalWanted - snap.totalDone) →
      snap.eta = max 0 (snap.totalWanted - snap.totalDone) / snap.downloadRate) ∧
    (¬(0 < snap.downloadRate ∧ 0 < max 0 (snap.totalWanted - snap.totalDone)) →
      snap.eta = 0) ∧
    (snap.downloadRate = 0 → snap.eta = 0) ∧
    (snap.totalWanted ≤ snap.totalDone → snap.eta = 0) ∧
    0 ≤ snap.eta := by
  rcases hgh : _get_handle st tid with ⟨res, st1⟩
  cases res with
  | error e =>
    unfold status_torrent at hs
    rw [hgh] at hs
    simp at hs
  | ok h =>
    rw [status_torrent_ok hgh] at hs
    simp only [Prod.mk.injEq, Except.ok.injEq] at hs
    obtain ⟨hsnap, hst⟩ := hs
    subst hsnap
    dsimp only
    refine ⟨fun hc => if_pos hc, fun hc => if_neg hc, ?_, ?_, ?_⟩
    · intro h0
      rw [if_neg]
      rintro ⟨h1, -⟩
      omega
    · intro hle
      rw [if_neg]
      rintro ⟨-, h2⟩
      have : max (0 : Int) (h.totalWanted - h.totalDone) = 0 :=
        max_eq_left (by omega)
      omega
    · split_ifs with hc
      · exact Int.ediv_nonneg (le_max_left 0 _) (le_of_lt hc.1)
      · exact le_refl 0

/-- Claim C1: for every successful `status(id)` call, when the returned
snapshot reports the torrent finished, the call has also disabled
auto-management and paused that torrent before returning; when the snapshot
does not report finished, the call leaves the session state unchanged. -/
theorem status_finished_forces_pause (st : AgentState) (tid : String)
    (snap : Snapshot) (st' : AgentState)
    (hs : status_torrent st tid = (.ok snap, st')) :
    (snap.isFinished = true →
      ∀ t ∈ st'.session, t.infoHash = snap.infoHash →
        t.paused = true ∧ t.autoManaged = false) ∧
    (snap.isFinished = false → st'.session = st.session) := by
  rcases hgh : _get_handle st tid with ⟨res, st1⟩
  cases res with
  | error e =>
    unfold status_torrent at hs
    rw [hgh] at hs
    simp at hs
  | ok h =>
    rw [status_torrent_ok hgh] at hs
    simp only [Prod.mk.injEq, Except.ok.injEq] at hs
    obtain ⟨hsnap, hst⟩ := hs
    subst hsnap
    obtain ⟨-, hsess, -, -⟩ := get_handle_ok hgh
    constructor
    · intro hfin t htmem htih
      dsimp only at hfin htih
      rw [← hst, if_pos hfin] at htmem
      obtain ⟨u, hu⟩ := mem_updateTorrent_matching htmem htih
      subst hu
      exact ⟨rfl, rfl⟩
    · intro hfin
      dsimp only at hfin
      rw [← hst, if_neg (by simp [hfin])]
      exact hsess

/-! ### Concrete fixtures for witnesses and counterexamples -/

/-- A finished, auto-managed, unpaused torrent (just-completed seed). -/
def finTor : Torrent :=
  { infoHash := "f1f1", paused := false, autoManaged := true,
    totalWanted := 10, totalDone := 10, downloadRate := 0,
    numPeers := 0, numSeeds := 3, progressOpt := some 1,
    stateStr := some "seeding", isFinished := true, hasMetadata := true }

def finState : AgentState :=
  { session := [finTor], handles := [("f1f1", "f1f1")] }

def defaultSnap : Snapshot :=
  { infoHash := "", progress := 0, downloadRate := 0, totalDone := 0,
    totalWanted := 0, eta := 0, peers := 0, seeds := 0, state := none,
    isFinished := false, hasMetadata := false }

def finSnap : Snapshot :=
  ((status_torrent finState "f1f1").1).toOption.getD defaultSnap

def finStateAfter : AgentState := (status_torrent finState "f1f1").2

/-- A mid-download torrent: 30 of 100 bytes done at rate 7. -/
def dlTor : Torrent :=
  { infoHash := "d2d2", paused := false, autoManaged := false,
    totalWanted := 100, totalDone := 30, downloadRate := 7,
    numPeers := 5, numSeeds := 2, progressOpt := some (3 / 10),
    stateStr := some "downloading", isFinished := false, hasMetadata := true }

def dlState : AgentState :=
  { session := [dlTor], handles := [("d2d2", "d2d2")] }

def dlSnap : Snapshot :=
  ((status_torrent dlState "d2d2").1).toOption.getD defaultSnap

def dlStateAfter : AgentState := (status_torrent dlState "d2d2").2

/-- A half-done torrent on a build without a readable `s.progress`. -/
def prTor : Torrent :=
  { infoHash := "p3p3", paused := false, autoManaged := false,
    totalWanted := 2, totalDone := 1, downloadRate := 0,
    numPeers := 0, numSeeds := 0, progressOpt := none,
    stateStr := some "downloading", isFinished := false, hasMetadata := true }

def prState : AgentState :=
  { session := [prTor], handles := [("p3p3", "p3p3")] }

def prSnap : Snapshot :=
  ((status_torrent prState "p3p3").1).toOption.getD defaultSnap

def prStateAfter : AgentState := (status_torrent prState "p3p3").2

theorem status_eta_formula_witness :
    status_torrent dlState "d2d2" = (.ok dlSnap, dlStateAfter) ∧
    dlSnap.eta = 10 ∧
    ((0 < dlSnap.downloadRate ∧ 0 < max 0 (dlSnap.totalWanted - dlSnap.totalDone) →
      dlSnap.eta = max 0 (dlSnap.totalWanted - dlSnap.totalDone) / dlSnap.downloadRate) ∧
    (¬(0 < dlSnap.downloadRate ∧ 0 < max 0 (dlSnap.totalWanted - dlSnap.totalDone)) →
      dlSnap.eta = 0) ∧
    (dlSnap.downloadRate = 0 → dlSnap.eta = 0) ∧
    (dlSnap.totalWanted ≤ dlSnap.totalDone → dlSnap.eta = 0) ∧
    0 ≤ dlSnap.eta) :=
  ⟨rfl, rfl, status_eta_formula dlState "d2d2" dlSnap dlStateAfter rfl⟩

theorem status_finished_forces_pause_witness :
    status_torrent finState "f1f1" = (.ok finSnap, finStateAfter) ∧
    finSnap.isFinished = true ∧
    ((finSnap.isFinished = true →
      ∀ t ∈ finStateAfter.session, t.infoHash = finSnap.infoHash →
        t.paused = true ∧ t.autoManaged = false) ∧
    (finSnap.isFinished = false → finStateAfter.session = finState.session)) :=
  ⟨rfl, rfl, status_finished_forces_pause finState "f1f1" finSnap finStateAfter rfl⟩

/-- Claim C3 (amended): for every successful `status(id)` call whose
snapshot has `totalWanted > 0`, the reported progress equals
`(totalDone / totalWanted) * 100` — the ratio expressed as a percentage —
unless the engine supplies its own progress ratio `p`, in which case
`p * 100` takes precedence over the computed quotient. -/
theorem status_progress_percentage (st : AgentState) (tid : String)
    (h : Torrent) (st1 : AgentState) (snap : Snapshot) (st' : AgentState)
    (hg : _get_handle st tid = (.ok h, st1))
    (hs : status_torrent st tid = (.ok snap, st'))
    (hw : 0 < snap.totalWanted) :
    (h.progressOpt = none →
      snap.progress = ((snap.totalDone : ℚ) / (snap.totalWanted : ℚ)) * 100) ∧
    (∀ p, h.progressOpt = some p → snap.progress = p * 100) := by
  rw [status_torrent_ok hg] at hs
  simp only [Prod.mk.injEq, Except.ok.injEq] at hs
  obtain ⟨hsnap, hst⟩ := hs
  subst hsnap
  dsimp only at hw ⊢
  constructor
  · intro hp
    rw [hp]
    dsimp only
    rw [if_pos hw]
  · intro p hp
    rw [hp]

/-- Counterexample to claim C3 as stated: with `totalWanted = 2`,
`totalDone = 1` and no engine-supplied ratio, the reported progress is `50`
(a percentage), not the quotient `totalDone / totalWanted = 1/2`. -/
theorem status_progress_not_plain_ratio :
    (status_torrent prState "p3p3").1 = .ok prSnap ∧
    prSnap.totalWanted = 2 ∧ prSnap.totalDone = 1 ∧
    prSnap.progress = 50 ∧
    prSnap.progress ≠ (prSnap.totalDone : ℚ) / (prSnap.totalWanted : ℚ) := by
  have hp : prSnap.progress = (((1 : Int) : ℚ) / ((2 : Int) : ℚ)) * 100 := rfl
  have hd : prSnap.totalDone = (1 : Int) := rfl
  have hw : prSnap.totalWanted = (2 : Int) := rfl
  refine ⟨rfl, rfl, rfl, ?_, ?_⟩
  · rw [hp]; norm_num
  · rw [hp, hd, hw]; norm_num

theorem status_progress_percentage_witness :
    _get_handle prState "p3p3" = (.ok prTor, prState) ∧
    status_torrent prState "p3p3" = (.ok prSnap, prStateAfter) ∧
    0 < prSnap.totalWanted ∧
    ((prTor.progressOpt = none →
      prSnap.progress = ((prSnap.totalDone : ℚ) / (prSnap.totalWanted : ℚ)) * 100) ∧
    (∀ p, prTor.progressOpt = some p → prSnap.progress = p * 100)) :=
  ⟨rfl, rfl, by decide,
    status_progress_percentage prState "p3p3" prTor prState prSnap prStateAfter
      rfl rfl (by decide)⟩

theorem updateTorrent_flag_result {ses : List Torrent} {ih : String}
    {b : Bool} {t : Torrent}
    (ht : t ∈ updateTorrent ses ih (fun u => { u with autoManaged := false, paused := b }))
    (hih : t.infoHash = ih) : t.paused = b ∧ t.autoManaged = false := by
  obtain ⟨u, hu⟩ := mem_updateTorrent_matching ht hih
  subst hu
  exact ⟨rfl, rfl⟩

/-- Claim C8: pause and resume are idempotent on a resolvable identity:
each call succeeds (returning `true`), a second identical call succeeds
again, and the torrent is left paused (resp. active / unpaused) and
unmanaged after either one or two calls. -/
theorem pause_resume_idempotent (st : AgentState) (tid : String) (h : Torrent)
    (st1 : AgentState) (hg : _get_handle st tid = (.ok h, st1)) :
    ∃ st2 st3 st4 st5,
      pause_torrent st tid = (.ok true, st2) ∧
      pause_torrent st2 tid = (.ok true, st3) ∧
      (∀ t ∈ st2.session, t.infoHash = h.infoHash →
        t.paused = true ∧ t.autoManaged = false) ∧
      (∀ t ∈ st3.session, t.infoHash = h.infoHash →
        t.paused = true ∧ t.autoManaged = false) ∧
      resume_torrent st tid = (.ok true, st4) ∧
      resume_torrent st4 tid = (.ok true, st5) ∧
      (∀ t ∈ st4.session, t.infoHash = h.infoHash →
        t.paused = false ∧ t.autoManaged = false) ∧
      (∀ t ∈ st5.session, t.infoHash = h.infoHash →
        t.paused = false ∧ t.autoManaged = false) := by
  obtain ⟨htid, hsess, hlook, hfind⟩ := get_handle_ok hg
  have hpres : ∀ b (u : Torrent),
      (({ u with autoManaged := false, paused := b } : Torrent)).infoHash = u.infoHash :=
    fun _ _ => rfl
  have hp1 : pause_torrent st tid =
      (.ok true, { st1 with session := (updateTorrent st1.session h.infoHash
        (fun u => { u with autoManaged := false, paused := true })) }) := by
    unfold pause_torrent
    rw [hg]
  have hfindP :
      (updateTorrent st1.session h.infoHash
        (fun u => { u with autoManaged := false, paused := true })).find?
          (fun t => t.infoHash == h.infoHash) =
        some { h with autoManaged := false, paused := true } := by
    rw [hsess, find?_updateTorrent _ _ _ (hpres true), hfind]
    rfl
  have hg2 : _get_handle
      ({ st1 with session := (updateTorrent st1.session h.infoHash
        (fun u => { u with autoManaged := false, paused := true })) }) tid =
      (.ok { h with autoManaged := false, paused := true },
       { st1 with session := (updateTorrent st1.session h.infoHash
        (fun u => { u with autoManaged := false, paused := true })) }) :=
    get_handle_of_lookup htid hlook hfindP
  have hp2 : pause_torrent
      ({ st1 with session := (updateTorrent st1.session h.infoHash
        (fun u => { u with autoManaged := false, paused := true })) }) tid =
      (.ok true, { st1 with session := (updateTorrent
        (updateTorrent st1.session h.infoHash
          (fun u => { u with autoManaged := false, paused := true }))
        h.infoHash
        (fun u => { u with autoManaged := false, paused := true })) }) := by
    unfold pause_torrent
    rw [hg2]
  have hr1 : resume_torrent st tid =
      (.ok true, { st1 with session := (updateTorrent st1.session h.infoHash
        (fun u => { u with autoManaged := false, paused := false })) }) := by
    unfold resume_torrent
    rw [hg]
  have hfindR :
      (updateTorrent st1.session h.infoHash
        (fun u => { u with autoManaged := false, paused := false })).find?
          (fun t => t.infoHash == h.infoHash) =
        some { h with autoManaged := false, paused := false } := by
    rw [hsess, find?_updateTorrent _ _ _ (hpres false), hfind]
    rfl
  have hg3 : _get_handle
      ({ st1 with session := (updateTorrent st1.session h.infoHash
        (fun u => { u with autoManaged := false, paused := false })) }) tid =
      (.ok { h with autoManaged := false, paused := false },
       { st1 with session := (updateTorrent st1.session h.infoHash
        (fun u => { u with autoManaged := false, paused := false })) }) :=
    get_handle_of_lookup htid hlook hfindR
  have hr2 : resume_torrent
      ({ st1 with session := (updateTorrent st1.session h.infoHash
        (fun u => { u with autoManaged := false, paused := false })) }) tid =
      (.ok true, { st1 with session := (updateTorrent
        (updateTorrent st1.session h.infoHash
          (fun u => { u with autoManaged := false, paused := false }))
        h.infoHash
        (fun u => { u with autoManaged := false, paused := false })) }) := by
    unfold resume_torrent
    rw [hg3]
  exact ⟨_, _, _, _, hp1, hp2,
    fun t ht hih => updateTorrent_flag_result ht hih,
    fun t ht hih => updateTorrent_flag_result ht hih,
    hr1, hr2,
    fun t ht hih => updateTorrent_flag_result ht hih,
    fun t ht hih => updateTorrent_flag_result ht hih⟩

theorem pause_resume_idempotent_witness :
    _get_handle dlState "d2d2" = (.ok dlTor, dlState) ∧
    (∃ st2 st3 st4 st5,
      pause_torrent dlState "d2d2" = (.ok true, st2) ∧
      pause_torrent st2 "d2d2" = (.ok true, st3) ∧
      (∀ t ∈ st2.session, t.infoHash = dlTor.infoHash →
        t.paused = true ∧ t.autoManaged = false) ∧
      (∀ t ∈ st3.session, t.infoHash = dlTor.infoHash →
        t.paused = true ∧ t.autoManaged = false) ∧
      resume_torrent dlState "d2d2" = (.ok true, st4) ∧
      resume_torrent st4 "d2d2" = (.ok true, st5) ∧
      (∀ t ∈ st4.session, t.infoHash = dlTor.infoHash →
        t.paused = false ∧ t.autoManaged = false) ∧
      (∀ t ∈ st5.session, t.infoHash = dlTor.infoHash →
        t.paused = false ∧ t.autoManaged = false)) :=
  ⟨rfl, pause_resume_idempotent dlState "d2d2" dlTor dlState rfl⟩

/-- Claim C9: a missing, absent or empty `torrentId` (both `None` and `""`
are falsy in `if not torrent_id`) makes `pause`, `resume`, `remove` and
`status` fail with `"torrentId required"`, leaving the state untouched —
before any registry lookup, session scan or engine call, for every state
and engine behaviour alike — and this error is distinct from the
`"torrent not found"` error used for unknown non-empty identities. -/
theorem missing_torrent_id_rejected (st : AgentState) (eng : EngineBeh)
    (df : Bool) (tid : String) (h : tid = "") :
    pause_torrent st tid = (.error "torrentId required", st) ∧
    resume_torrent st tid = (.error "torrentId required", st) ∧
    remove_torrent eng st tid df = (.error "torrentId required", st) ∧
    status_torrent st tid = (.error "torrentId required", st) ∧
    "torrentId required" ≠ "torrent not found" := by
  subst h
  exact ⟨rfl, rfl, rfl, rfl, by decide⟩

theorem missing_torrent_id_rejected_witness :
    ("" : String) = "" ∧
    (pause_torrent dlState "" = (.error "torrentId required", dlState) ∧
    resume_torrent dlState "" = (.error "torrentId required", dlState) ∧
    remove_torrent
      { version := none, newTorrent := dlTor,
        removeOptRaises := false, removePlainRaises := false }
      dlState "" true = (.error "torrentId required", dlState) ∧
    status_torrent dlState "" = (.error "torrentId required", dlState) ∧
    "torrentId required" ≠ "torrent not found") :=
  ⟨rfl, missing_torrent_id_rejected dlState
    { version := none, newTorrent := dlTor,
      removeOptRaises := false, removePlainRaises := false } true "" rfl⟩

/-! ### Registry invariant and removal -/

/-- Every registry entry's key equals the computed identity of the handle
stored under it (in the model, the stored handle's info-hash string). -/
def RegistryInv (st : AgentState) : Prop := ∀ p ∈ st.handles, p.1 = p.2

instance (st : AgentState) : Decidable (RegistryInv st) :=
  decidable_of_iff (∀ p ∈ st.handles, p.1 = p.2) Iff.rfl

theorem dictLookup_mem {hs : List (String × String)} {k v : String}
    (h : dictLookup hs k = some v) : (k, v) ∈ hs := by
  unfold dictLookup at h
  cases hf : hs.find? (fun p => p.1 == k) with
  | none => rw [hf] at h; cases h
  | some pr =>
    rw [hf] at h
    injection h with hv
    have hm := List.mem_of_find?_eq_some hf
    have hk : pr.1 = k := by simpa using List.find?_some hf
    have hpr : pr = (k, v) := by
      cases pr
      simp only at hk hv
      rw [hk, hv]
    rw [← hpr]
    exact hm

theorem get_handle_handles {st : AgentState} {tid : String} {h : Torrent}
    {st1 : AgentState} (hg : _get_handle st tid = (.ok h, st1)) :
    (st1.handles = st.handles ∧ dictLookup st.handles tid = some h.infoHash) ∨
    (st1.handles = dictInsert st.handles tid h.infoHash ∧ h.infoHash = tid) := by
  unfold _get_handle at hg
  split at hg
  · simp at hg
  · split at hg
    · rename_i ih hl
      split at hg
      · rename_i t hf
        simp only [Prod.mk.injEq, Except.ok.injEq] at hg
        obtain ⟨ht, hst⟩ := hg
        subst hst
        have hih : t.infoHash = ih := by simpa using List.find?_some hf
        left
        rw [← ht, hih]
        exact ⟨rfl, hl⟩
      · simp at hg
    · split at hg
      · rename_i th hf
        simp only [Prod.mk.injEq, Except.ok.injEq] at hg
        obtain ⟨ht, hst⟩ := hg
        subst hst
        have hih : th.infoHash = tid := by simpa using List.find?_some hf
        right
        rw [← ht]
        exact ⟨rfl, hih⟩
      · simp at hg

theorem get_handle_error_state {st : AgentState} {tid e : String}
    {st1 : AgentState} (hg : _get_handle st tid = (.error e, st1)) :
    st1 = st := by
  unfold _get_handle at hg
  split at hg
  · exact (Prod.mk.injEq .. ▸ hg).2.symm
  · split at hg
    · split at hg
      · simp at hg
      · exact (Prod.mk.injEq .. ▸ hg).2.symm
    · split at hg
      · simp at hg
      · exact (Prod.mk.injEq .. ▸ hg).2.symm

/-- Under the registry invariant, a resolved handle's computed identity is
the queried identity. -/
theorem get_handle_identity {st : AgentState} {tid : String} {h : Torrent}
    {st1 : AgentState} (hInv : RegistryInv st)
    (hg : _get_handle st tid = (.ok h, st1)) : h.infoHash = tid := by
  rcases get_handle_handles hg with ⟨-, hl⟩ | ⟨-, hih⟩
  · exact (hInv _ (dictLookup_mem hl)).symm
  · exact hih

theorem dictLookup_erase_self (hs : List (String × String)) (k : String) :
    dictLookup (dictErase hs k) k = none := by
  unfold dictLookup dictErase
  rw [List.find?_eq_none.mpr]
  · rfl
  · intro p hp
    have h2 := (List.mem_filter.mp hp).2
    simp only [Bool.not_eq_true'] at h2
    simp [h2]

theorem pause_torrent_of_get_error {st : AgentState} {tid e : String}
    {st1 : AgentState} (hg : _get_handle st tid = (.error e, st1)) :
    pause_torrent st tid = (.error e, st1) := by
  unfold pause_torrent
  rw [hg]

theorem resume_torrent_of_get_error {st : AgentState} {tid e : String}
    {st1 : AgentState} (hg : _get_handle st tid = (.error e, st1)) :
    resume_torrent st tid = (.error e, st1) := by
  unfold resume_torrent
  rw [hg]

theorem status_torrent_of_get_error {st : AgentState} {tid e : String}
    {st1 : AgentState} (hg : _get_handle st tid = (.error e, st1)) :
    status_torrent st tid = (.error e, st1) := by
  unfold status_torrent
  rw [hg]

theorem remove_torrent_of_get_error {eng : EngineBeh} {st : AgentState}
    {tid e : String} {st1 : AgentState} {df : Bool}
    (hg : _get_handle st tid = (.error e, st1)) :
    remove_torrent eng st tid df = (.error e, st1) := by
  unfold remove_torrent
  rw [hg]

/-- Claim C2 (amended): for every `remove(id, deleteFiles)` call on a
resolvable identity in a state satisfying the registry invariant, provided
at least one of the engine's two removal attempts (`ses.remove_torrent(h,
opt)`, then the plain fallback `ses.remove_torrent(h)`) does not raise, the
identity is unregistered and every subsequent `pause`, `resume`, `remove`
or `status` on it fails with the NotFound error `"torrent not found"`.
(When both attempts raise, the exception propagates before
`del handles[torrent_id]` runs and the identity remains registered.) -/
theorem remove_unregisters_of_engine_success (st : AgentState) (tid : String)
    (h : Torrent) (st1 : AgentState) (eng : EngineBeh) (df : Bool)
    (hInv : RegistryInv st)
    (hg : _get_handle st tid = (.ok h, st1))
    (hbeh : eng.removeOptRaises = false ∨ eng.removePlainRaises = false) :
    ∃ st2,
      remove_torrent eng st tid df = (.ok true, st2) ∧
      dictLookup st2.handles tid = none ∧
      (pause_torrent st2 tid).1 = .error "torrent not found" ∧
      (resume_torrent st2 tid).1 = .error "torrent not found" ∧
      (∀ eng2 df2, (remove_torrent eng2 st2 tid df2).1 = .error "torrent not found") ∧
      (status_torrent st2 tid).1 = .error "torrent not found" := by
  obtain ⟨htid, hsess, hlook, hfind⟩ := get_handle_ok hg
  have hih := get_handle_identity hInv hg
  refine ⟨{ session := st1.session.filter (fun t => !(t.infoHash == h.infoHash)),
            handles := dictErase st1.handles tid }, ?_, ?_, ?_, ?_, ?_, ?_⟩
  · unfold remove_torrent
    rw [hg]
    cases hopt : eng.removeOptRaises with
    | false => simp [ses_remove_torrent, hopt, dictErase]
    | true =>
      have hplain : eng.removePlainRaises = false := by
        rcases hbeh with hb | hb
        · rw [hopt] at hb
          cases hb
        · exact hb
      simp [ses_remove_torrent, hopt, hplain, dictErase]
  · exact dictLookup_erase_self st1.handles tid
  all_goals {
    have hlook2 : dictLookup (dictErase st1.handles tid) tid = none :=
      dictLookup_erase_self st1.handles tid
    have hfind2 : (st1.session.filter
        (fun t => !(t.infoHash == h.infoHash))).find?
          (fun u => u.infoHash == tid) = none := by
      rw [List.find?_eq_none]
      intro x hx
      have h2 := (List.mem_filter.mp hx).2
      simp only [Bool.not_eq_true'] at h2
      rw [← hih]
      simp [h2]
    have hnf : _get_handle
        { session := st1.session.filter (fun t => !(t.infoHash == h.infoHash)),
          handles := dictErase st1.handles tid } tid =
        (.error "torrent not found",
          { session := st1.session.filter (fun t => !(t.infoHash == h.infoHash)),
            handles := dictErase st1.handles tid }) :=
      get_handle_notfound htid hlook2 hfind2
    first
    | exact (by rw [pause_torrent_of_get_error hnf])
    | exact (by rw [resume_torrent_of_get_error hnf])
    | exact fun eng2 df2 => (by rw [remove_torrent_of_get_error hnf])
    | exact (by rw [status_torrent_of_get_error hnf])
  }

/-- Fixture for C2's counterexample: an engine whose removal call raises
both with and without the options argument. -/
def badRemoveEng : EngineBeh :=
  { version := none, newTorrent := dlTor,
    removeOptRaises := true, removePlainRaises := true }

/-- Counterexample to claim C2 as stated: when both engine removal calls
raise, `remove` propagates the error, the identity is NOT unregistered, and
a subsequent `status` on the same identity still succeeds instead of
failing with NotFound. -/
theorem remove_double_engine_failure_keeps_registration :
    (remove_torrent badRemoveEng dlState "d2d2" true).1 =
      .error "remove_torrent failed" ∧
    (remove_torrent badRemoveEng dlState "d2d2" true).2 = dlState ∧
    dictLookup (remove_torrent badRemoveEng dlState "d2d2" true).2.handles
      "d2d2" = some "d2d2" ∧
    (status_torrent (remove_torrent badRemoveEng dlState "d2d2" true).2
      "d2d2").1 = .ok dlSnap := by
  exact ⟨rfl, rfl, rfl, rfl⟩

def goodRemoveEng : EngineBeh :=
  { version := none, newTorrent := dlTor,
    removeOptRaises := false, removePlainRaises := false }

theorem remove_unregisters_of_engine_success_witness :
    RegistryInv dlState ∧
    _get_handle dlState "d2d2" = (.ok dlTor, dlState) ∧
    (goodRemoveEng.removeOptRaises = false ∨
      goodRemoveEng.removePlainRaises = false) ∧
    (∃ st2,
      remove_torrent goodRemoveEng dlState "d2d2" false = (.ok true, st2) ∧
      dictLookup st2.handles "d2d2" = none ∧
      (pause_torrent st2 "d2d2").1 = .error "torrent not found" ∧
      (resume_torrent st2 "d2d2").1 = .error "torrent not found" ∧
      (∀ eng2 df2, (remove_torrent eng2 st2 "d2d2" df2).1 =
        .error "torrent not found") ∧
      (status_torrent st2 "d2d2").1 = .error "torrent not found") :=
  ⟨by decide, rfl, Or.inl rfl,
    remove_unregisters_of_engine_success dlState "d2d2" dlTor dlState
      goodRemoveEng false (by decide) rfl (Or.inl rfl)⟩

/-- Trace anatomy of `_apply_settings_safe`: it never raises, every attempt
in its trace belongs to one of the given keys, and every given key gets a
primary attempt — plus a secondary attempt when the primary failed. -/
theorem apply_settings_safe_trace (eng : SettingsEngine) (keys : List String) :
    ∃ l, _apply_settings_safe eng keys = .ok l ∧
      (∀ a ∈ l,
        (∃ k, k ∈ keys ∧ a = .primary k) ∨
        (∃ k, k ∈ keys ∧ a = .secondary k ∧ _apply_settings eng k = false)) ∧
      (∀ k ∈ keys, Attempt.primary k ∈ l ∧
        (_apply_settings eng k = false → Attempt.secondary k ∈ l)) := by
  induction keys with
  | nil => exact ⟨[], rfl, by simp, by simp⟩
  | cons key rest ihp =>
    obtain ⟨l, hl, hdom, hkeys⟩ := ihp
    cases ha : _apply_settings eng key with
    | true =>
      refine ⟨Attempt.primary key :: l, ?_, ?_, ?_⟩
      · unfold _apply_settings_safe
        rw [ha, hl]
        simp
      · intro a hamem
        rcases List.mem_cons.mp hamem with rfl | h2
        · exact Or.inl ⟨key, List.mem_cons_self .., rfl⟩
        · rcases hdom a h2 with ⟨k, hk, he⟩ | ⟨k, hk, he, hf⟩
          · exact Or.inl ⟨k, List.mem_cons_of_mem _ hk, he⟩
          · exact Or.inr ⟨k, List.mem_cons_of_mem _ hk, he, hf⟩
      · intro k hk
        rcases List.mem_cons.mp hk with rfl | h2
        · refine ⟨List.mem_cons_self .., fun hf => ?_⟩
          rw [ha] at hf
          cases hf
        · obtain ⟨hp, hsec⟩ := hkeys k h2
          exact ⟨List.mem_cons_of_mem _ hp, fun hf => List.mem_cons_of_mem _ (hsec hf)⟩
    | false =>
      refine ⟨Attempt.primary key :: Attempt.secondary key :: l, ?_, ?_, ?_⟩
      · unfold _apply_settings_safe
        rw [ha, hl]
        simp
      · intro a hamem
        rcases List.mem_cons.mp hamem with rfl | h2
        · exact Or.inl ⟨key, List.mem_cons_self .., rfl⟩
        rcases List.mem_cons.mp h2 with rfl | h3
        · exact Or.inr ⟨key, List.mem_cons_self .., rfl, ha⟩
        · rcases hdom a h3 with ⟨k, hk, he⟩ | ⟨k, hk, he, hf⟩
          · exact Or.inl ⟨k, List.mem_cons_of_mem _ hk, he⟩
          · exact Or.inr ⟨k, List.mem_cons_of_mem _ hk, he, hf⟩
      · intro k hk
        rcases List.mem_cons.mp hk with rfl | h2
        · exact ⟨List.mem_cons_self .., fun _ =>
            List.mem_cons_of_mem _ (List.mem_cons_self ..)⟩
        · obtain ⟨hp, hsec⟩ := hkeys k h2
          exact ⟨List.mem_cons_of_mem _ (List.mem_cons_of_mem _ hp),
            fun hf => List.mem_cons_of_mem _ (List.mem_cons_of_mem _ (hsec hf))⟩

/-- Claim C5: for every configuration mapping and every pattern of engine
failures, `_apply_settings_safe` never raises (always returns `.ok`), and
each key is attempted individually — the primary entry point always, the
secondary entry point exactly when the primary failed — so one key's
failure never prevents the attempted application of the remaining keys. -/
theorem apply_settings_safe_per_key (eng : SettingsEngine) (keys : List String) :
    ∃ l, _apply_settings_safe eng keys = .ok l ∧
      ∀ k ∈ keys,
        Attempt.primary k ∈ l ∧
        ((Attempt.secondary k ∈ l) ↔ _apply_settings eng k = false) := by
  obtain ⟨l, hl, hdom, hkeys⟩ := apply_settings_safe_trace eng keys
  refine ⟨l, hl, fun k hk => ⟨(hkeys k hk).1, ?_, (hkeys k hk).2⟩⟩
  intro hmem
  rcases hdom _ hmem with ⟨k2, -, he⟩ | ⟨k2, -, he, hf⟩
  · cases he
  · injection he with hke
    rw [hke]
    exact hf

/-- Which input lines produce a response (every stripped-non-empty one). -/
def emitsResponse : InputLine → Bool
  | .empty => false
  | _ => true

theorem processLine_isSome (st : AgentState) (l : InputLine) :
    (processLine st l).1.isSome = emitsResponse l := by
  cases l <;> rfl

/-- Claim C6: every non-empty input line that is not decodable as a request
object (undecodable, or decodable but not an object) yields exactly one
response carrying an error message and a null id; a decoded request always
yields exactly one response carrying its own id, whatever the handler's
outcome; and the loop answers every non-empty line — one response per such
line — so no handler error terminates it. -/
theorem dispatcher_always_responds :
    (∀ st ls, (mainLoop st ls).1.length = ls.countP emitsResponse) ∧
    (∀ st : AgentState, processLine st .malformed =
      (some ⟨ReqId.null, .error "Expecting value"⟩, st)) ∧
    (∀ st : AgentState, processLine st .nonObject =
      (some ⟨ReqId.null, .error "object has no attribute get"⟩, st)) ∧
    (∀ (st : AgentState) (r : Request), processLine st (.request r) =
      (some ⟨r.id, (dispatch st r).1⟩, (dispatch st r).2)) := by
  refine ⟨?_, fun st => rfl, fun st => rfl, fun st r => rfl⟩
  intro st ls
  induction ls generalizing st with
  | nil => rfl
  | cons l ls ihp =>
    rcases hpl : processLine st l with ⟨r, st'⟩
    rcases hml : mainLoop st' ls with ⟨rs, st''⟩
    have hstep : mainLoop st (l :: ls) = (r.toList ++ rs, st'') := by
      unfold mainLoop
      rw [hpl]
      dsimp only
      rw [hml]
    have h2 := ihp st'
    rw [hml] at h2
    have h1 : r.toList.length = if emitsResponse l then 1 else 0 := by
      have hs := processLine_isSome st l
      rw [hpl] at hs
      cases r with
      | none => rw [← hs]; rfl
      | some x => rw [← hs]; rfl
    rw [hstep, List.countP_cons]
    simp only [List.length_append, h1, h2]
    cases emitsResponse l <;> simp [Nat.add_comm]

/-- Claim C7: a decoded request whose method is not one of `ping`, `add`,
`pause`, `resume`, `remove`, `status` gets the response
`{"error": {"message": "unknown method"}}` with its own id, and no
lifecycle operation is invoked: the handle registry and the session are
left exactly as they were. -/
theorem unknown_method_no_effect (st : AgentState) (r : Request)
    (h : ∀ m ∈ METHODS, r.method ≠ some m) :
    processLine st (.request r) = (some ⟨r.id, .error "unknown method"⟩, st) := by
  cases hm : r.method with
  | none => simp [processLine, dispatch, hm]
  | some m =>
    have h1 : m ≠ "ping" := fun he => h "ping" (by simp [METHODS]) (hm.trans (by rw [he]))
    have h2 : m ≠ "add" := fun he => h "add" (by simp [METHODS]) (hm.trans (by rw [he]))
    have h3 : m ≠ "pause" := fun he => h "pause" (by simp [METHODS]) (hm.trans (by rw [he]))
    have h4 : m ≠ "resume" := fun he => h "resume" (by simp [METHODS]) (hm.trans (by rw [he]))
    have h5 : m ≠ "remove" := fun he => h "remove" (by simp [METHODS]) (hm.trans (by rw [he]))
    have h6 : m ≠ "status" := fun he => h "status" (by simp [METHODS]) (hm.trans (by rw [he]))
    simp [processLine, dispatch, hm, h1, h2, h3, h4, h5, h6]

/-- A request with an unrecognized method name, used as C7's witness input. -/
def bogusReq : Request :=
  { id := ReqId.num 7, method := some "frobnicate",
    params := { source := none, savePath := none, torrentId := none,
                deleteFiles := none },
    eng := { version := none, newTorrent := dlTor,
             removeOptRaises := false, removePlainRaises := false } }

theorem unknown_method_no_effect_witness :
    (∀ m ∈ METHODS, bogusReq.method ≠ some m) ∧
    processLine dlState (.request bogusReq) =
      (some ⟨bogusReq.id, .error "unknown method"⟩, dlState) :=
  ⟨by decide, unknown_method_no_effect dlState bogusReq (by decide)⟩

/-! ### Registry-invariant preservation (C10) -/

theorem find?_filter_key (hs : List (String × String)) (k k' : String)
    (hne : k' ≠ k) :
    (hs.filter (fun p => !(p.1 == k))).find? (fun p => p.1 == k') =
      hs.find? (fun p => p.1 == k') := by
  induction hs with
  | nil => rfl
  | cons p ps ihp =>
    by_cases hc : p.1 = k
    · have hck : (p.1 == k) = true := by simpa using hc
      have hck' : (p.1 == k') = false := by
        simp only [beq_eq_false_iff_ne, ne_eq, hc]
        exact fun he => hne he.symm
      rw [List.filter_cons, List.find?_cons]
      simp only [hck, Bool.not_true, hck']
      exact ihp
    · have hck : (p.1 == k) = false := by simpa using hc
      rw [List.filter_cons]
      simp only [hck, Bool.not_false, if_true]
      rw [List.find?_cons, List.find?_cons]
      cases hq : (p.1 == k') with
      | true => rfl
      | false => exact ihp

theorem dictLookup_insert_ne (hs : List (String × String)) (k v k' : String)
    (hne : k' ≠ k) :
    dictLookup (dictInsert hs k v) k' = dictLookup hs k' := by
  unfold dictLookup dictInsert
  rw [List.find?_cons]
  have : ((k, v).1 == k') = false := by
    simp only [beq_eq_false_iff_ne, ne_eq]
    exact fun he => hne he.symm
  simp only [this]
  rw [find?_filter_key hs k k' hne]

theorem dictLookup_erase_ne (hs : List (String × String)) (k k' : String)
    (hne : k' ≠ k) :
    dictLookup (dictErase hs k) k' = dictLookup hs k' := by
  unfold dictLookup dictErase
  rw [find?_filter_key hs k k' hne]

theorem registryInv_insert_self {hs : List (String × String)}
    (h : ∀ p ∈ hs, p.1 = p.2) (k : String) :
    ∀ p ∈ dictInsert hs k k, p.1 = p.2 := by
  intro p hp
  rcases List.mem_cons.mp hp with rfl | hp'
  · rfl
  · exact h _ (List.mem_filter.mp hp').1

theorem registryInv_erase {hs : List (String × String)}
    (h : ∀ p ∈ hs, p.1 = p.2) (k : String) :
    ∀ p ∈ dictErase hs k, p.1 = p.2 :=
  fun _p hp => h _ (List.mem_filter.mp hp).1

/-- The state left behind by `_get_handle` keeps the registry unchanged or
re-registers the queried identity under itself. -/
theorem get_handle_handles_cases (st : AgentState) (tid : String) :
    (_get_handle st tid).2.handles = st.handles ∨
    (_get_handle st tid).2.handles = dictInsert st.handles tid tid := by
  rcases hg : _get_handle st tid with ⟨res, st1⟩
  cases res with
  | error e =>
    left
    rw [get_handle_error_state hg]
  | ok h =>
    rcases get_handle_handles hg with ⟨hh, -⟩ | ⟨hh, hih⟩
    · left
      exact hh
    · right
      rw [hh, hih]

theorem pause_handles (st : AgentState) (tid : String) :
    (pause_torrent st tid).2.handles = (_get_handle st tid).2.handles := by
  rcases hg : _get_handle st tid with ⟨res, st1⟩
  unfold pause_torrent
  rw [hg]
  cases res <;> rfl

theorem resume_handles (st : AgentState) (tid : String) :
    (resume_torrent st tid).2.handles = (_get_handle st tid).2.handles := by
  rcases hg : _get_handle st tid with ⟨res, st1⟩
  unfold resume_torrent
  rw [hg]
  cases res <;> rfl

theorem status_handles (st : AgentState) (tid : String) :
    (status_torrent st tid).2.handles = (_get_handle st tid).2.handles := by
  rcases hg : _get_handle st tid with ⟨res, st1⟩
  unfold status_torrent
  rw [hg]
  cases res with
  | error e => rfl
  | ok h =>
    dsimp only
    split <;> rfl

theorem remove_handles (eng : EngineBeh) (st : AgentState) (tid : String)
    (df : Bool) :
    (remove_torrent eng st tid df).2.handles = (_get_handle st tid).2.handles ∨
    (remove_torrent eng st tid df).2.handles =
      dictErase (_get_handle st tid).2.handles tid := by
  rcases hg : _get_handle st tid with ⟨res, st1⟩
  unfold remove_torrent
  rw [hg]
  cases res with
  | error e => left; rfl
  | ok h =>
    dsimp only
    split
    · left; rfl
    · right; rfl

theorem add_handles (eng : EngineBeh) (st : AgentState) (src sp : String) :
    (add_torrent eng st src sp).2.handles = st.handles ∨
    (add_torrent eng st src sp).2.handles =
      dictInsert st.handles eng.newTorrent.infoHash eng.newTorrent.infoHash := by
  unfold add_torrent
  split
  · left; rfl
  · split
    · left; rfl
    · split
      · left; rfl
      · dsimp only
        split
        · left; rfl
        · right; rfl

/-- The registry key a request can touch: `add` touches the new torrent's
computed identity, the id-taking methods touch the queried identity. -/
def touchedKey : InputLine → Option String
  | .request r =>
    match r.method with
    | some m =>
      if m = "add" then some r.eng.newTorrent.infoHash
      else if m = "pause" ∨ m = "resume" ∨ m = "remove" ∨ m = "status" then
        some (r.params.torrentId.getD "")
      else none
    | none => none
  | _ => none

theorem dispatch_snd_of_ping (st : AgentState) (r : Request)
    (hm : r.method = some "ping") : (dispatch st r).2 = st := by
  unfold dispatch
  rw [hm]
  rfl

theorem dispatch_snd_of_add (st : AgentState) (r : Request)
    (hm : r.method = some "add") :
    (dispatch st r).2 =
      (add_torrent r.eng st (r.params.source.getD "")
        (r.params.savePath.getD "")).2 := by
  unfold dispatch
  rw [hm]
  rcases hop : add_torrent r.eng st (r.params.source.getD "")
    (r.params.savePath.getD "") with ⟨res, st'⟩
  cases res <;> simp [hop]

theorem dispatch_snd_of_pause (st : AgentState) (r : Request)
    (hm : r.method = some "pause") :
    (dispatch st r).2 = (pause_torrent st (r.params.torrentId.getD "")).2 := by
  unfold dispatch
  rw [hm]
  rcases hop : pause_torrent st (r.params.torrentId.getD "") with ⟨res, st'⟩
  cases res <;> simp [hop]

theorem dispatch_snd_of_resume (st : AgentState) (r : Request)
    (hm : r.method = some "resume") :
    (dispatch st r).2 = (resume_torrent st (r.params.torrentId.getD "")).2 := by
  unfold dispatch
  rw [hm]
  rcases hop : resume_torrent st (r.params.torrentId.getD "") with ⟨res, st'⟩
  cases res <;> simp [hop]

theorem dispatch_snd_of_remove (st : AgentState) (r : Request)
    (hm : r.method = some "remove") :
    (dispatch st r).2 = (remove_torrent r.eng st (r.params.torrentId.getD "")
      (r.params.deleteFiles.getD false)).2 := by
  unfold dispatch
  rw [hm]
  rcases hop : remove_torrent r.eng st (r.params.torrentId.getD "")
    (r.params.deleteFiles.getD false) with ⟨res, st'⟩
  cases res <;> simp [hop]

theorem dispatch_snd_of_status (st : AgentState) (r : Request)
    (hm : r.method = some "status") :
    (dispatch st r).2 = (status_torrent st (r.params.torrentId.getD "")).2 := by
  unfold dispatch
  rw [hm]
  rcases hop : status_torrent st (r.params.torrentId.getD "") with ⟨res, st'⟩
  cases res <;> simp [hop]

theorem dispatch_snd_of_unknown (st : AgentState) (r : Request) (m : String)
    (hm : r.method = some m)
    (h1 : m ≠ "ping") (h2 : m ≠ "add") (h3 : m ≠ "pause") (h4 : m ≠ "resume")
    (h5 : m ≠ "remove") (h6 : m ≠ "status") : (dispatch st r).2 = st := by
  unfold dispatch
  rw [hm]
  simp [h1, h2, h3, h4, h5, h6]

/-- Registry shapes reachable in one operation, and what they preserve. -/
theorem inv_and_lookup_of_shapes (st : AgentState)
    (H : List (String × String)) (tid : String) (hInv : RegistryInv st)
    (hc : H = st.handles ∨ H = dictInsert st.handles tid tid ∨
          H = dictErase st.handles tid ∨
          H = dictErase (dictInsert st.handles tid tid) tid) :
    (∀ p ∈ H, p.1 = p.2) ∧
    (∀ k, k ≠ tid → dictLookup H k = dictLookup st.handles k) := by
  rcases hc with rfl | rfl | rfl | rfl
  · exact ⟨hInv, fun k _ => rfl⟩
  · exact ⟨registryInv_insert_self hInv tid,
      fun k hk => dictLookup_insert_ne _ _ _ _ hk⟩
  · exact ⟨registryInv_erase hInv tid,
      fun k hk => dictLookup_erase_ne _ _ _ hk⟩
  · refine ⟨registryInv_erase (registryInv_insert_self hInv tid) tid, ?_⟩
    intro k hk
    calc dictLookup (dictErase (dictInsert st.handles tid tid) tid) k
        = dictLookup (dictInsert st.handles tid tid) k :=
          dictLookup_erase_ne _ _ _ hk
      _ = dictLookup st.handles k := dictLookup_insert_ne _ _ _ _ hk

/-- An id-taking operation leaves the registry in one of the four shapes of
`inv_and_lookup_of_shapes` relative to its queried identity. -/
theorem get_handle_then_erase_shapes (st : AgentState) (tid : String)
    (H : List (String × String))
    (hc : H = (_get_handle st tid).2.handles ∨
          H = dictErase (_get_handle st tid).2.handles tid) :
    H = st.handles ∨ H = dictInsert st.handles tid tid ∨
    H = dictErase st.handles tid ∨
    H = dictErase (dictInsert st.handles tid tid) tid := by
  rcases get_handle_handles_cases st tid with hg | hg <;>
    rcases hc with rfl | rfl
  · exact Or.inl hg
  · exact Or.inr (Or.inr (Or.inl (by rw [hg])))
  · exact Or.inr (Or.inl hg)
  · exact Or.inr (Or.inr (Or.inr (by rw [hg])))

/-- Claim C10: every dispatched request preserves the registry invariant —
each entry's key equals the computed identity of the handle stored under
it (insertion happens only in `add` under the new identity and in
`_get_handle`'s reconciliation after an equality match) — and no request
changes the binding of any key other than the one it queries (`remove`
deletes only the queried key). -/
theorem registry_key_matches_identity (st : AgentState) (l : InputLine)
    (hInv : RegistryInv st) :
    RegistryInv (processLine st l).2 ∧
    (∀ k : String, some k ≠ touchedKey l →
      dictLookup (processLine st l).2.handles k = dictLookup st.handles k) := by
  cases l with
  | empty => exact ⟨hInv, fun k _ => rfl⟩
  | malformed => exact ⟨hInv, fun k _ => rfl⟩
  | nonObject => exact ⟨hInv, fun k _ => rfl⟩
  | request r =>
    have hpl : (processLine st (.request r)).2 = (dispatch st r).2 := rfl
    rw [hpl]
    cases hm : r.method with
    | none =>
      have hd : (dispatch st r).2 = st := by unfold dispatch; rw [hm]
      rw [hd]
      exact ⟨hInv, fun k _ => rfl⟩
    | some m =>
      by_cases c1 : m = "ping"
      · subst c1
        rw [dispatch_snd_of_ping st r hm]
        exact ⟨hInv, fun k _ => rfl⟩
      by_cases c2 : m = "add"
      · subst c2
        have hd := dispatch_snd_of_add st r hm
        have hT : touchedKey (.request r) = some r.eng.newTorrent.infoHash := by
          unfold touchedKey
          dsimp only
          rw [hm]
          rfl
        have hsh := add_handles r.eng st (r.params.source.getD "")
          (r.params.savePath.getD "")
        have hres := inv_and_lookup_of_shapes st (dispatch st r).2.handles
          r.eng.newTorrent.infoHash hInv (by
            rw [hd]
            rcases hsh with hh | hh
            · exact Or.inl hh
            · exact Or.inr (Or.inl hh))
        refine ⟨hres.1, fun k hk => hres.2 k ?_⟩
        rw [hT] at hk
        exact fun he => hk (by rw [he])
      by_cases c3 : m = "pause"
      · subst c3
        have hd := dispatch_snd_of_pause st r hm
        have hT : touchedKey (.request r) =
            some (r.params.torrentId.getD "") := by
          unfold touchedKey
          dsimp only
          rw [hm]
          rfl
        have hres := inv_and_lookup_of_shapes st (dispatch st r).2.handles
          (r.params.torrentId.getD "") hInv
          (get_handle_then_erase_shapes st _ _ (Or.inl (by
            rw [hd, pause_handles])))
        refine ⟨hres.1, fun k hk => hres.2 k ?_⟩
        rw [hT] at hk
        exact fun he => hk (by rw [he])
      by_cases c4 : m = "resume"
      · subst c4
        have hd := dispatch_snd_of_resume st r hm
        have hT : touchedKey (.request r) =
            some (r.params.torrentId.getD "") := by
          unfold touchedKey
          dsimp only
          rw [hm]
          rfl
        have hres := inv_and_lookup_of_shapes st (dispatch st r).2.handles
          (r.params.torrentId.getD "") hInv
          (get_handle_then_erase_shapes st _ _ (Or.inl (by
            rw [hd, resume_handles])))
        refine ⟨hres.1, fun k hk => hres.2 k ?_⟩
        rw [hT] at hk
        exact fun he => hk (by rw [he])
      by_cases c5 : m = "remove"
      · subst c5
        have hd := dispatch_snd_of_remove st r hm
        have hT : touchedKey (.request r) =
            some (r.params.torrentId.getD "") := by
          unfold touchedKey
          dsimp only
          rw [hm]
          rfl
        have hsh := remove_handles r.eng st (r.params.torrentId.getD "")
          (r.params.deleteFiles.getD false)
        have hres := inv_and_lookup_of_shapes st (dispatch st r).2.handles
          (r.params.torrentId.getD "") hInv
          (get_handle_then_erase_shapes st _ _ (by
            rw [hd]
            exact hsh))
        refine ⟨hres.1, fun k hk => hres.2 k ?_⟩
        rw [hT] at hk
        exact fun he => hk (by rw [he])
      by_cases c6 : m = "status"
      · subst c6
        have hd := dispatch_snd_of_status st r hm
        have hT : touchedKey (.request r) =
            some (r.params.torrentId.getD "") := by
          unfold touchedKey
          dsimp only
          rw [hm]
          rfl
        have hres := inv_and_lookup_of_shapes st (dispatch st r).2.handles
          (r.params.torrentId.getD "") hInv
          (get_handle_then_erase_shapes st _ _ (Or.inl (by
            rw [hd, status_handles])))
        refine ⟨hres.1, fun k hk => hres.2 k ?_⟩
        rw [hT] at hk
        exact fun he => hk (by rw [he])
      · rw [dispatch_snd_of_unknown st r m hm c1 c2 c3 c4 c5 c6]
        exact ⟨hInv, fun k _ => rfl⟩

theorem registry_key_matches_identity_witness :
    RegistryInv dlState ∧
    (RegistryInv (processLine dlState (.request bogusReq)).2 ∧
    (∀ k : String, some k ≠ touchedKey (.request bogusReq) →
      dictLookup (processLine dlState (.request bogusReq)).2.handles k =
        dictLookup dlState.handles k)) :=
  ⟨by decide, registry_key_matches_identity dlState (.request bogusReq) (by decide)⟩

end TorrentAgent
